import Mathlib

/-!
Shallow embedding of the OpenSim in-memory data-table container
(`src/OpenSim/Common/DataTable.h`): the label registry and metadata store of
`AbstractDataTable`, the dense-storage operations of `DataTable_`, and the
timestamp layer of `TimeSeriesDataTable_`.  Entries are modelled by an
explicit value type with a distinguished not-a-number sentinel, timestamps by
`Int` (the claims use an integer `TS`), `size_t` by `Nat` with the one
wrapping subtraction (`size() - 1`) modelled explicitly.  C++ exceptions are
modelled by an explicit error value; mutators return the post-state together
with the optional exception, because a thrown exception in the source leaves
already-performed mutations in place.  An out-of-bounds standard-library
access (dereferencing a past-the-end iterator) is undefined behavior in the
source and is modelled by a distinguished `ub` outcome.
-/

namespace OpenSimDT

/-- Exception taxonomy of DataTable.h (each C++ exception class is one
constructor; the explanatory message strings are irrelevant to behavior and
are not modelled). -/
inductive Err where
  | EmptyDataTable
  | NotEnoughElements
  | TooManyElements
  | NumberOfColumnsMismatch
  | NumberOfRowsMismatch
  | RowDoesNotExist
  | ColumnDoesNotExist
  | ColumnHasLabel
  | ColumnHasNoLabel
  | ColumnLabelExists
  | ZeroElements
  | InvalidEntry
  | MetaDataKeyExists
  | MetaDataKeyDoesNotExist
  | MetaDataTypeMismatch
  | TimestampsEmpty
  | DataHasZeroRows
  | TimestampsLengthIncorrect
  | TimestampDoesNotExist
  | TimestampBreaksInvariant
  | TimestampsColumnFull
  deriving DecidableEq

/-- Matrix entry type `ET`: a value, or the not-a-number fill sentinel
(`SimTK::NaN`) used for unsupplied cells. -/
inductive EntryVal where
  | nan
  | val (v : Int)
  deriving DecidableEq

/-- State of a `TimeSeriesDataTable_<ET, TS>` (which extends `DataTable_<ET>`,
which extends `AbstractDataTable`): the dense matrix `data_` (its dimensions
and cells), the label registry `col_ind_`, the metadata store `metadata_`
(each value modelled as a runtime type tag paired with a payload), and the
timestamp column `timestamps_`. -/
structure Table where
  nrow : Nat
  ncol : Nat
  cells : List (List EntryVal)
  colInd : List (String × Nat)
  metadata : List (String × Nat × Int)
  timestamps : List Int
  deriving DecidableEq

/-- Outcome of a mutating member function: normal return with the new state,
a thrown exception together with the state at the throw point (C++ exceptions
do not roll anything back), or undefined behavior. -/
inductive MutRes where
  | ok (t : Table)
  | exn (e : Err) (t : Table)
  | ub
  deriving DecidableEq

/-- Outcome of a non-mutating query returning a value of type `a`. -/
inductive QRes (a : Type) where
  | ok (x : a)
  | exn (e : Err)
  | ub
  deriving DecidableEq

/-- Outcome of one of the `throwIf...` helper checks. -/
inductive Chk where
  | ok
  | exn (e : Err)
  | ub
  deriving DecidableEq

/-! ## Label registry (`AbstractDataTable`) -/

/-- `AbstractDataTable::hasColumnLabel`: membership test on the label map.
Total; it has no throwing path. -/
def hasColumnLabel (s : Table) (lbl : String) : Bool :=
  s.colInd.any fun kv => kv.1 == lbl

/-- `DataTable_::hasColumn(size_t)`: bound check against the column count. -/
def hasColumn (s : Table) (i : Nat) : Bool :=
  i < s.ncol

/-- `AbstractDataTable::columnHasLabel`: first `throwIfColumnDoesNotExist`,
then a linear scan for an entry mapped to the index. -/
def columnHasLabel (s : Table) (i : Nat) : Except Err Bool :=
  if ¬ hasColumn s i then .error .ColumnDoesNotExist
  else .ok (s.colInd.any fun kv => kv.2 == i)

/-- `AbstractDataTable::getColumnLabel`: `throwIfColumnDoesNotExist`, then
`find_if` for the entry mapped to the index. -/
def getColumnLabel (s : Table) (i : Nat) : Except Err String :=
  if ¬ hasColumn s i then .error .ColumnDoesNotExist
  else
    match s.colInd.find? (fun kv => kv.2 == i) with
    | none => .error .ColumnHasNoLabel
    | some kv => .ok kv.1

/-- `AbstractDataTable::getColumnIndex`: `throwIfColumnDoesNotExist(label)`
then `col_ind_.at(label)`. -/
def getColumnIndex (s : Table) (lbl : String) : Except Err Nat :=
  if ¬ hasColumnLabel s lbl then .error .ColumnDoesNotExist
  else .ok (((s.colInd.find? fun kv => kv.1 == lbl).map Prod.snd).getD 0)

/-- `col_ind_.erase(label)`: removes the (unique-keyed) entry with the key. -/
def eraseLbl (s : Table) (lbl : String) : Table :=
  { s with colInd := s.colInd.eraseP fun kv => kv.1 == lbl }

/-- `col_ind_[key] = value` (`operator[]` assignment): updates the entry if
the key is present, appends it otherwise. -/
def mapAssign (m : List (String × Nat)) (k : String) (v : Nat) :
    List (String × Nat) :=
  if m.any (fun kv => kv.1 == k) then
    m.map fun kv => if kv.1 == k then (k, v) else kv
  else m ++ [(k, v)]

/-- `AbstractDataTable::changeColumnLabel(size_t, string)`: reads the old
label, erases it, and only then checks the new label for a collision — a
collision throws `ColumnLabelExists` with the old entry already gone. -/
def changeColumnLabelIx (s : Table) (i : Nat) (newLbl : String) : MutRes :=
  match getColumnLabel s i with
  | .error e => .exn e s
  | .ok old =>
    let s1 := eraseLbl s old
    if hasColumnLabel s1 newLbl then .exn .ColumnLabelExists s1
    else .ok { s1 with colInd := s1.colInd ++ [(newLbl, i)] }

/-- `AbstractDataTable::changeColumnLabel(string, string)`: reads the index
of the old label, erases the old label, and only then checks the new label
for a collision. -/
def changeColumnLabelLbl (s : Table) (oldLbl newLbl : String) : MutRes :=
  match getColumnIndex s oldLbl with
  | .error e => .exn e s
  | .ok colind =>
    let s1 := eraseLbl s oldLbl
    if hasColumnLabel s1 newLbl then .exn .ColumnLabelExists s1
    else .ok { s1 with colInd := mapAssign s1.colInd newLbl colind }

/-! ## Metadata store (`AbstractDataTable`) -/

/-- `AbstractDataTable::hasMetaData`. -/
def hasMetaData (s : Table) (key : String) : Bool :=
  s.metadata.any fun kv => kv.1 == key

/-- `AbstractDataTable::insertMetaData`: throws `MetaDataKeyExists` on a
duplicate key, otherwise records the value together with its runtime type
(modelled by the tag `tag`). -/
def insertMetaData (s : Table) (key : String) (tag : Nat) (v : Int) : MutRes :=
  if hasMetaData s key then .exn .MetaDataKeyExists s
  else .ok { s with metadata := s.metadata ++ [(key, tag, v)] }

/-- `AbstractDataTable::getMetaData<ValueType>`: `metadata_.at(key)` throwing
`MetaDataKeyDoesNotExist` when absent, then `getValue<ValueType>` throwing
`MetaDataTypeMismatch` when the requested type differs from the stored one. -/
def getMetaData (s : Table) (tag : Nat) (key : String) : Except Err Int :=
  match s.metadata.find? (fun kv => kv.1 == key) with
  | none => .error .MetaDataKeyDoesNotExist
  | some kv => if kv.2.1 ≠ tag then .error .MetaDataTypeMismatch else .ok kv.2.2

/-! ## Dense matrix primitive and table core (`DataTable_`) -/

/-- Pad or truncate one row to the given column count; fresh cells take the
fill sentinel (the matrix primitive's not-a-number initialization). -/
def padRow (r : List EntryVal) (nc : Nat) : List EntryVal :=
  r.take nc ++ List.replicate (nc - r.length) .nan

/-- `data_.resizeKeep(nr, nc)` on the cell grid: keeps the overlapping
region, fills fresh cells with the sentinel. -/
def matResizeKeep (cells : List (List EntryVal)) (nr nc : Nat) :
    List (List EntryVal) :=
  (cells.take nr ++ List.replicate (nr - cells.length) []).map
    fun r => padRow r nc

/-- `data_.set(r, c, v)` on the cell grid. -/
def setCell (cells : List (List EntryVal)) (r c : Nat) (v : EntryVal) :
    List (List EntryVal) :=
  cells.set r ((cells[r]?.getD []).set c v)

/-- The element-writing loop of the iterator-based `addRow`: writes the
produced entries into row `r` starting at column `c`. -/
def writeCells (cells : List (List EntryVal)) (r c : Nat) :
    List EntryVal → List (List EntryVal)
  | [] => cells
  | v :: rest => writeCells (setCell cells r c v) r (c + 1) rest

/-- `DataTable_::addRow(const SimTK::RowVector_&)`: exact shape match —
`ZeroElements` for a zero-length input, `NumberOfColumnsMismatch` when a
non-empty table's column count differs, else append the row (an empty table
takes the input's length as its column count). -/
def addRowFixed (s : Table) (row : List EntryVal) : MutRes :=
  if row.length = 0 then .exn .ZeroElements s
  else if 0 < s.ncol ∧ row.length ≠ s.ncol then .exn .NumberOfColumnsMismatch s
  else .ok { s with
             nrow := s.nrow + 1
             ncol := row.length
             cells := matResizeKeep s.cells (s.nrow + 1) row.length
                       |>.set s.nrow row }

/-- `DataTable_::addColumn(const SimTK::Vector_&)`: `ZeroElements` for a
zero-length input; for a non-empty table whose row count differs from the
input length the source throws `NotEnoughElements` (its own doc comment says
`NumberOfRowsMismatch`); else append the column. -/
def addColumnFixed (s : Table) (col : List EntryVal) : MutRes :=
  if col.length = 0 then .exn .ZeroElements s
  else if 0 < s.nrow ∧ col.length ≠ s.nrow then .exn .NotEnoughElements s
  else .ok { s with
             nrow := col.length
             ncol := s.ncol + 1
             cells := (matResizeKeep s.cells col.length (s.ncol + 1)).zipWith
                       (fun r v => r.set s.ncol v) col }

/-- `DataTable_::rndToNextPowOf2`: bit-smearing round-up to a power of two
(the source asserts the argument fits in 32 bits). -/
def rndToNextPowOf2 (num : Nat) : Nat :=
  let n := num - 1
  let n := n ||| (n >>> 1)
  let n := n ||| (n >>> 2)
  let n := n ||| (n >>> 4)
  let n := n ||| (n >>> 8)
  let n := n ||| (n >>> 16)
  n + 1

/-- The capacity-growth expression of the iterator-based `addRow`/`addColumn`
on an empty table: `(ncol & (ncol-1)) == 0 ? ncol << 2 : rndToNextPowOf2(ncol)`
(the adjacent source comment says a power-of-two capacity is doubled; the
shift is by two). -/
def nextCap (ncap : Nat) : Nat :=
  if ncap &&& (ncap - 1) == 0 then ncap <<< 2 else rndToNextPowOf2 ncap

/-- Result of the single-row ingestion loop on an empty table: the row
buffer, the element count `col`, the final capacity, and the list of
capacities adopted at each growth event. -/
structure GrowResult where
  row : List EntryVal
  col : Nat
  ncap : Nat
  caps : List Nat
  deriving DecidableEq

/-- The ingestion loop of the iterator-based `addRow` on an empty table:
write each element, and when the capacity is exhausted with elements
remaining, grow it with `nextCap` (the grid is re-sized with sentinel
fill). -/
def addRowLoopEmpty (buf : List EntryVal) (col ncap : Nat) :
    List EntryVal → GrowResult
  | [] => ⟨buf, col, ncap, []⟩
  | v :: rest =>
    let buf1 := buf.set col v
    let col1 := col + 1
    if col1 = ncap ∧ rest ≠ [] then
      let ncap1 := nextCap ncap
      let r := addRowLoopEmpty (buf1 ++ List.replicate (ncap1 - ncap) .nan)
                col1 ncap1 rest
      ⟨r.row, r.col, r.ncap, ncap1 :: r.caps⟩
    else addRowLoopEmpty buf1 col1 ncap rest

/-- The empty-table branch of the iterator-based `addRow`: initial capacity
from the hint (`data_.resizeKeep(1, hint)`), the growth loop, and the final
trim `resizeKeep(1, col)` when the capacity was not exactly filled. -/
def addRowEmptyRun (input : List EntryVal) (hint : Nat) :
    GrowResult × List EntryVal × Nat :=
  let r := addRowLoopEmpty (List.replicate hint .nan) 0 hint input
  if r.col ≠ r.ncap then (r, r.row.take r.col, r.col) else (r, r.row, r.ncap)

/-- `DataTable_::addRow(InputIt, InputIt, size_t, bool)`: `ZeroElements` for
an empty range; `InvalidEntry` for a zero hint on an empty table; on a table
with columns, resize to one more row, write the produced entries, and throw
`NotEnoughElements` afterwards when the row was only partially filled and
missing values are disallowed (the partially written row stays committed);
on an empty table, the growth-loop branch. -/
def addRowIter (s : Table) (input : List EntryVal) (hint : Nat)
    (allowMissing : Bool) : MutRes :=
  if input.isEmpty then .exn .ZeroElements s
  else if (s.nrow = 0 ∨ s.ncol = 0) ∧ hint = 0 then .exn .InvalidEntry s
  else if 0 < s.ncol then
    let cells2 := writeCells (matResizeKeep s.cells (s.nrow + 1) s.ncol)
                    s.nrow 0 input
    let s2 := { s with nrow := s.nrow + 1, cells := cells2 }
    if ¬ allowMissing ∧ input.length ≠ s.ncol then .exn .NotEnoughElements s2
    else .ok s2
  else
    let r := addRowEmptyRun input hint
    .ok { s with nrow := 1, ncol := r.2.2, cells := [r.2.1] }

/-- `DataTable_::clearData`: `data_.clear()` (a 0-by-0 matrix) plus
`clearColumnLabels()`; the timestamp column of the derived class is not
touched. -/
def clearData (s : Table) : Table :=
  { s with nrow := 0, ncol := 0, cells := [], colInd := [] }

/-! ## Timestamp layer (`TimeSeriesDataTable_`) -/

/-- The `size_t` expression `n - 1` with its unsigned wraparound: for `n = 0`
the C++ value is `SIZE_MAX`. -/
def sizeSub1 (n : Nat) : Nat :=
  if n = 0 then 2 ^ 64 - 1 else n - 1

/-- `throwIfTimestampBreaksInvariantPrev(rowIndex, newTimestamp)`: when a
predecessor exists it must be strictly below the new value; reading a
nonexistent predecessor (out-of-bounds vector access) is undefined
behavior. -/
def chkPrev (ts : List Int) (i : Nat) (t : Int) : Chk :=
  if 0 < i then
    match ts[i - 1]? with
    | none => .ub
    | some p => if p ≥ t then .exn .TimestampBreaksInvariant else .ok
  else .ok

/-- `throwIfTimestampBreaksInvariantNext(rowIndex, newTimestamp)`: the guard
is `rowIndex < timestamps_.size() - 1` with unsigned wraparound; when it
holds the successor must be strictly above the new value. -/
def chkNext (ts : List Int) (i : Nat) (t : Int) : Chk :=
  if i < sizeSub1 ts.length then
    match ts[i + 1]? with
    | none => .ub
    | some nx => if nx ≤ t then .exn .TimestampBreaksInvariant else .ok
  else .ok

/-- `TimeSeriesDataTable_::addTimestamp`: `throwIfDataHasZeroRows`,
`throwIfTimestampsFull`, the predecessor check at the append position, then
`push_back`. -/
def addTimestamp (s : Table) (t : Int) : MutRes :=
  if s.nrow = 0 then .exn .DataHasZeroRows s
  else if s.nrow = s.timestamps.length then .exn .TimestampsColumnFull s
  else
    match chkPrev s.timestamps s.timestamps.length t with
    | .ub => .ub
    | .exn e => .exn e s
    | .ok => .ok { s with timestamps := s.timestamps ++ [t] }

/-- The per-element loop of the bulk `addTimestamps`: each produced value is
checked (fullness, predecessor) and pushed before the next is examined, so a
failing element leaves the earlier ones committed. -/
def addTsLoop (nrow : Nat) (ts : List Int) :
    List Int → Option Err × List Int
  | [] => (none, ts)
  | v :: rest =>
    if nrow = ts.length then (some .TimestampsColumnFull, ts)
    else
      match chkPrev ts ts.length v with
      | .ub => (some .TimestampBreaksInvariant, ts)
      | .exn e => (some e, ts)
      | .ok => addTsLoop nrow (ts ++ [v]) rest

/-- `TimeSeriesDataTable_::addTimestamps(InputIt, InputIt)`: `ZeroElements`
for an empty range, `throwIfDataHasZeroRows`, then the per-element loop. -/
def addTimestamps (s : Table) (input : List Int) : MutRes :=
  if input.isEmpty then .exn .ZeroElements s
  else if s.nrow = 0 then .exn .DataHasZeroRows s
  else
    match addTsLoop s.nrow s.timestamps input with
    | (none, ts') => .ok { s with timestamps := ts' }
    | (some e, ts') => .exn e { s with timestamps := ts' }

/-- `TimeSeriesDataTable_::changeTimestampOfRow`: zero-rows check, row-bound
check, `throwIfIndexExceedsTimestampLength` (whose comparison
`rowIndex > size() - 1` wraps for an empty column), both neighbor checks,
then the in-place write. -/
def changeTimestampOfRow (s : Table) (rowIndex : Nat) (newT : Int) : MutRes :=
  if s.nrow = 0 then .exn .DataHasZeroRows s
  else if ¬ (rowIndex < s.nrow) then .exn .RowDoesNotExist s
  else if rowIndex > sizeSub1 s.timestamps.length then
    .exn .TimestampDoesNotExist s
  else
    match chkPrev s.timestamps rowIndex newT with
    | .ub => .ub
    | .exn e => .exn e s
    | .ok =>
      match chkNext s.timestamps rowIndex newT with
      | .ub => .ub
      | .exn e => .exn e s
      | .ok => .ok { s with timestamps := s.timestamps.set rowIndex newT }

/-- `std::lower_bound` on the (sorted) timestamp column: index of the first
element not below the query, i.e. the length of the longest prefix of
elements below it. -/
def lowerBoundIdx (ts : List Int) (t : Int) : Nat :=
  match ts with
  | [] => 0
  | x :: xs => if x < t then lowerBoundIdx xs t + 1 else 0

/-- `TimeSeriesDataTable_::changeTimestamp(oldTimestamp, newTimestamp)`:
zero-rows and empty-column checks, `lower_bound`, then `*iter != old` — when
the query exceeds every stored timestamp this dereferences the past-the-end
iterator (undefined behavior); otherwise a mismatch throws
`TimestampDoesNotExist`, and on a match both neighbor checks run before the
in-place write. -/
def changeTimestamp (s : Table) (oldT newT : Int) : MutRes :=
  if s.nrow = 0 then .exn .DataHasZeroRows s
  else if s.timestamps.isEmpty then .exn .TimestampsEmpty s
  else
    let i := lowerBoundIdx s.timestamps oldT
    match s.timestamps[i]? with
    | none => .ub
    | some v =>
      if v ≠ oldT then .exn .TimestampDoesNotExist s
      else
        match chkPrev s.timestamps i newT with
        | .ub => .ub
        | .exn e => .exn e s
        | .ok =>
          match chkNext s.timestamps i newT with
          | .ub => .ub
          | .exn e => .exn e s
          | .ok => .ok { s with timestamps := s.timestamps.set i newT }

/-- `TimeSeriesDataTable_::getRowIndex(TS)`: fully-stamped check,
`lower_bound`, then `*iter != timestamp` — dereferencing the past-the-end
iterator (undefined behavior) when the query exceeds every stored timestamp,
`TimestampDoesNotExist` on a mismatch, else the index. -/
def getRowIndexExact (s : Table) (t : Int) : QRes Nat :=
  if s.nrow = 0 then .exn .DataHasZeroRows
  else if s.nrow ≠ s.timestamps.length then .exn .TimestampsLengthIncorrect
  else
    let i := lowerBoundIdx s.timestamps t
    match s.timestamps[i]? with
    | none => .ub
    | some v => if v ≠ t then .exn .TimestampDoesNotExist else .ok i

/-- `TimeSeriesDataTable_::getTimestamp(TS, NearestDir)` restricted to the
`LessOrGreaterThanEqual` policy: after `lower_bound`, clamp to the last
element past the end and to the first element before the begin; an exact hit
returns the query; otherwise the element whose distance is smaller wins, the
ceiling winning ties (`*geq - t <= t - *(geq - 1)` returns `*geq`). -/
def getTimestampNearest (s : Table) (t : Int) : QRes Int :=
  if s.nrow = 0 then .exn .DataHasZeroRows
  else if s.nrow ≠ s.timestamps.length then .exn .TimestampsLengthIncorrect
  else
    let ts := s.timestamps
    let i := lowerBoundIdx ts t
    if i = ts.length then
      match ts.getLast? with
      | none => .ub
      | some b => .ok b
    else
      match ts[i]? with
      | none => .ub
      | some vg =>
        if vg = t then .ok t
        else if i = 0 then
          match ts.head? with
          | none => .ub
          | some f => .ok f
        else
          match ts[i - 1]? with
          | none => .ub
          | some vp => if vg - t ≤ t - vp then .ok vg else .ok vp

/-- `TimeSeriesDataTable_::getRowIndex(TS, NearestDir)` restricted to the
`LessOrGreaterThanEqual` policy: the index counterpart of
`getTimestampNearest`, with the same clamping and the same tie break toward
the `lower_bound` result. -/
def getRowIndexNearest (s : Table) (t : Int) : QRes Nat :=
  if s.nrow = 0 then .exn .DataHasZeroRows
  else if s.nrow ≠ s.timestamps.length then .exn .TimestampsLengthIncorrect
  else
    let ts := s.timestamps
    let i := lowerBoundIdx ts t
    if i = ts.length then .ok (ts.length - 1)
    else
      match ts[i]? with
      | none => .ub
      | some vg =>
        if vg = t then .ok i
        else if i = 0 then .ok 0
        else
          match ts[i - 1]? with
          | none => .ub
          | some vp => if vg - t ≤ t - vp then .ok i else .ok (i - 1)

/-- The monotonicity invariant of the timestamp column: strictly increasing,
stated as pairwise order of the list. -/
def StrictIncr (ts : List Int) : Prop :=
  List.Pairwise (· < ·) ts

instance (ts : List Int) : Decidable (StrictIncr ts) :=
  inferInstanceAs (Decidable (List.Pairwise _ _))

/-! ## Helper lemmas -/

theorem getD_eq_getElem (ts : List Int) (j : Nat) (h : j < ts.length) :
    ts.getD j 0 = ts[j] := by
  rw [List.getD_eq_getElem?_getD, List.getElem?_eq_getElem h]
  rfl

theorem strictIncr_getElem (ts : List Int) (hp : StrictIncr ts)
    (a b : Nat) (ha : a < ts.length) (hb : b < ts.length) (hab : a < b) :
    ts[a] < ts[b] :=
  List.pairwise_iff_getElem.mp hp a b ha hb hab

/-- A strictly-below-the-successor, strictly-above-the-predecessor in-place
update keeps the timestamp column strictly increasing. -/
theorem strictIncr_set (ts : List Int) (i : Nat) (t : Int)
    (hp : StrictIncr ts) (hi : i < ts.length)
    (hprev : i = 0 ∨ ts.getD (i - 1) 0 < t)
    (hnext : i + 1 = ts.length ∨ t < ts.getD (i + 1) 0) :
    StrictIncr (ts.set i t) := by
  apply List.pairwise_iff_getElem.mpr
  intro a b ha hb hab
  rw [List.length_set] at ha hb
  rw [List.getElem_set, List.getElem_set]
  by_cases hia : i = a
  · subst hia
    rw [if_pos rfl, if_neg (by omega)]
    rcases hnext with h | h
    · omega
    · have hi1 : i + 1 < ts.length := by omega
      rw [getD_eq_getElem ts (i + 1) hi1] at h
      rcases Nat.eq_or_lt_of_le (Nat.succ_le_of_lt hab) with hb1 | hb1
      · simpa [hb1.symm] using h
      · exact lt_trans h (strictIncr_getElem ts hp (i + 1) b hi1 hb hb1)
  · rw [if_neg hia]
    by_cases hib : i = b
    · subst hib
      rw [if_pos rfl]
      rcases hprev with h | h
      · omega
      · have hi1 : i - 1 < ts.length := by omega
        rw [getD_eq_getElem ts (i - 1) hi1] at h
        rcases Nat.eq_or_lt_of_le (Nat.le_sub_one_of_lt hab) with ha1 | ha1
        · simpa [ha1] using h
        · exact lt_trans (strictIncr_getElem ts hp a (i - 1) ha hi1 ha1) h
    · rw [if_neg hib]
      exact strictIncr_getElem ts hp a b ha hb hab

/-- Appending a value strictly above the last element keeps the timestamp
column strictly increasing. -/
theorem strictIncr_append_single (ts : List Int) (t : Int) (hp : StrictIncr ts)
    (hlast : ts.length = 0 ∨ ts.getD (ts.length - 1) 0 < t) :
    StrictIncr (ts ++ [t]) := by
  apply List.pairwise_append.mpr
  refine ⟨hp, by simp [StrictIncr], ?_⟩
  intro a ha b hb
  simp only [List.mem_singleton] at hb
  subst hb
  obtain ⟨j, hj, rfl⟩ := List.mem_iff_getElem.mp ha
  rcases hlast with h | h
  · omega
  · have hl1 : ts.length - 1 < ts.length := by omega
    rw [getD_eq_getElem ts (ts.length - 1) hl1] at h
    rcases Nat.eq_or_lt_of_le (Nat.le_sub_one_of_lt hj) with hj1 | hj1
    · simpa [hj1] using h
    · exact lt_trans (strictIncr_getElem ts hp j (ts.length - 1) hj hl1 hj1) h

theorem chkPrev_ok_elim (ts : List Int) (i : Nat) (t : Int)
    (h : chkPrev ts i t = .ok) :
    i = 0 ∨ (i - 1 < ts.length ∧ ts.getD (i - 1) 0 < t) := by
  unfold chkPrev at h
  by_cases h0 : 0 < i
  · rw [if_pos h0] at h
    right
    cases hg : ts[i - 1]? with
    | none => rw [hg] at h; cases h
    | some p =>
      rw [hg] at h
      dsimp only at h
      obtain ⟨hlt, hget⟩ := List.getElem?_eq_some.mp hg
      refine ⟨hlt, ?_⟩
      rw [getD_eq_getElem ts (i - 1) hlt, hget]
      by_contra hc
      rw [if_pos (show p ≥ t by omega)] at h
      cases h
  · left; omega

theorem chkNext_ok_elim (ts : List Int) (i : Nat) (t : Int)
    (h : chkNext ts i t = .ok) :
    ¬ (i < sizeSub1 ts.length) ∨ (i + 1 < ts.length ∧ t < ts.getD (i + 1) 0) := by
  unfold chkNext at h
  by_cases h0 : i < sizeSub1 ts.length
  · rw [if_pos h0] at h
    right
    cases hg : ts[i + 1]? with
    | none => rw [hg] at h; cases h
    | some nx =>
      rw [hg] at h
      dsimp only at h
      obtain ⟨hlt, hget⟩ := List.getElem?_eq_some.mp hg
      refine ⟨hlt, ?_⟩
      rw [getD_eq_getElem ts (i + 1) hlt, hget]
      by_contra hc
      rw [if_pos (show nx ≤ t by omega)] at h
      cases h
  · left; exact h0

/-- The predecessor check at the append position succeeds exactly on an empty
column or a last element strictly below the new value. -/
theorem chkPrev_append_ok_elim (ts : List Int) (t : Int)
    (h : chkPrev ts ts.length t = .ok) :
    ts.length = 0 ∨ ts.getD (ts.length - 1) 0 < t := by
  rcases chkPrev_ok_elim ts ts.length t h with h1 | h1
  · left; exact h1
  · right; exact h1.2

/-- Characterization of the `lower_bound` index by the elements around it. -/
theorem lowerBoundIdx_eq (ts : List Int) (t : Int) (n : Nat)
    (hn : n ≤ ts.length)
    (hlt : ∀ j, j < n → ts.getD j 0 < t)
    (hge : n < ts.length → t ≤ ts.getD n 0) :
    lowerBoundIdx ts t = n := by
  induction ts generalizing n with
  | nil =>
    simp only [List.length_nil, Nat.le_zero] at hn
    simp [lowerBoundIdx, hn]
  | cons x xs ih =>
    cases n with
    | zero =>
      have hx : t ≤ x := by simpa using hge (by simp)
      simp [lowerBoundIdx, not_lt.mpr hx]
    | succ m =>
      have hx : x < t := by simpa using hlt 0 (Nat.succ_pos m)
      have hrec : lowerBoundIdx xs t = m := by
        refine ih m (by simpa using hn) ?_ ?_
        · intro j hj
          simpa using hlt (j + 1) (Nat.succ_lt_succ hj)
        · intro hm
          simpa using hge (Nat.succ_lt_succ hm)
      simp [lowerBoundIdx, if_pos hx, hrec]

theorem addTsLoop_strictIncr (nrow : Nat) (input : List Int) :
    ∀ ts : List Int, StrictIncr ts →
      StrictIncr (addTsLoop nrow ts input).2 ∧
      ∃ pre, (addTsLoop nrow ts input).2 = ts ++ pre := by
  induction input with
  | nil =>
    intro ts h
    exact ⟨h, [], by simp [addTsLoop]⟩
  | cons v rest ih =>
    intro ts h
    by_cases hful : nrow = ts.length
    · exact ⟨by simpa [addTsLoop, hful] using h, [], by simp [addTsLoop, hful]⟩
    · simp only [addTsLoop, if_neg hful]
      cases hc : chkPrev ts ts.length v with
      | ub => exact ⟨h, [], by simp⟩
      | exn e => exact ⟨h, [], by simp⟩
      | ok =>
        have hinc : StrictIncr (ts ++ [v]) :=
          strictIncr_append_single ts v h (chkPrev_append_ok_elim ts v hc)
        obtain ⟨h1, pre, hpre⟩ := ih (ts ++ [v]) hinc
        exact ⟨h1, v :: pre, by rw [hpre]; simp⟩

theorem addTsLoop_len (nrow : Nat) (input : List Int) :
    ∀ ts : List Int, ts.length ≤ nrow →
      (addTsLoop nrow ts input).2.length ≤ nrow := by
  induction input with
  | nil => intro ts h; simpa [addTsLoop] using h
  | cons v rest ih =>
    intro ts h
    by_cases hful : nrow = ts.length
    · simp only [addTsLoop, if_pos hful]
      exact h
    · simp only [addTsLoop, if_neg hful]
      cases hc : chkPrev ts ts.length v with
      | ub => exact h
      | exn e => exact h
      | ok => exact ih (ts ++ [v]) (by simp; omega)

/-! ## Concrete fixture tables -/

/-- A fully stamped 3-by-1 table with the timestamp column `[1, 3, 5]` of the
spec's worked example. -/
def tbl135 : Table :=
  ⟨3, 1, [[.val 10], [.val 30], [.val 50]], [], [], [1, 3, 5]⟩

/-- A 3-row table with an empty timestamp column. -/
def tbl3rows : Table :=
  ⟨3, 1, [[.val 10], [.val 30], [.val 50]], [], [], []⟩

/-- A 1-by-2 table whose two columns are labeled `a` and `b`. -/
def tblAB : Table :=
  ⟨1, 2, [[.val 1, .val 2]], [("a", 0), ("b", 1)], [], []⟩

/-- The completely empty table. -/
def tblEmpty : Table := ⟨0, 0, [], [], [], []⟩

/-- The 1-by-1 table produced by appending the row `[1]` to the empty
table. -/
def tblOne : Table := ⟨1, 1, [[.val 1]], [], [], []⟩

/-- The 1-by-1 table `tblOne` after stamping its row with timestamp 1. -/
def tblOneTs : Table := ⟨1, 1, [[.val 1]], [], [], [1]⟩

/-- A 1-by-4 table with no timestamps. -/
def tbl14 : Table := ⟨1, 4, [[.val 9, .val 8, .val 7, .val 6]], [], [], []⟩

/-- A 2-by-1 table with no timestamps. -/
def tbl21 : Table := ⟨2, 1, [[.val 1], [.val 2]], [], [], []⟩

/-! ## Claim theorems -/

/-- C1, counterexample: on the spec's own example `[1, 3, 5]` the
`LessOrGreaterThanEqual` lookup resolves the equidistant query 2 to
timestamp 3 (row 1) and the query 4 to timestamp 5 (row 2) — not to the
lower timestamps 1 and 3 the claim states, because the source's comparison
`*geq - t <= t - *(geq - 1)` awards ties to the ceiling. -/
theorem C1_counterexample :
    getTimestampNearest tbl135 2 = .ok 3 ∧
    getTimestampNearest tbl135 2 ≠ .ok 1 ∧
    getTimestampNearest tbl135 4 = .ok 5 ∧
    getTimestampNearest tbl135 4 ≠ .ok 3 ∧
    getRowIndexNearest tbl135 2 = .ok 1 ∧
    getRowIndexNearest tbl135 2 ≠ .ok 0 := by
  decide

/-- C2, counterexample: on a 3-row table with no timestamps yet, the bulk
`addTimestamps` with input `[1, 2, 0]` throws `TimestampBreaksInvariant` at
the third element but leaves the first two already pushed: the timestamp
sequence after the failed call is `[1, 2]`, not the empty sequence it was
before the call. -/
theorem C2_counterexample :
    addTimestamps tbl3rows [1, 2, 0] =
      .exn .TimestampBreaksInvariant
        ⟨3, 1, [[.val 10], [.val 30], [.val 50]], [], [], [1, 2]⟩ ∧
    tbl3rows.timestamps = [] := by
  decide

/-- C3, counterexample: two reachable states violate the claimed invariant.
First, the state reached from the empty table by `addRow`, `addTimestamp`,
`clearData` has one timestamp but zero rows — the inherited `clearData`
resets the matrix without touching the timestamp column.  Second, from a
5-by-0 table (the fixed-shape constructor permits zero columns) two
`addTimestamp` calls succeed, and then the iterator-based `addRow` — an
append operation — fails the `data_.ncol() > 0` test, takes the empty-table
branch, and resets the table to one row while both timestamps remain. -/
theorem C3_counterexample :
    addRowFixed tblEmpty [.val 1] = .ok tblOne ∧
    addTimestamp tblOne 1 = .ok tblOneTs ∧
    (clearData tblOneTs).nrow = 0 ∧
    (clearData tblOneTs).timestamps.length = 1 ∧
    ¬ ((clearData tblOneTs).timestamps.length ≤ (clearData tblOneTs).nrow) ∧
    addTimestamp ⟨5, 0, [[], [], [], [], []], [], [], []⟩ 10 =
      .ok ⟨5, 0, [[], [], [], [], []], [], [], [10]⟩ ∧
    addTimestamp ⟨5, 0, [[], [], [], [], []], [], [], [10]⟩ 20 =
      .ok ⟨5, 0, [[], [], [], [], []], [], [], [10, 20]⟩ ∧
    addRowIter ⟨5, 0, [[], [], [], [], []], [], [], [10, 20]⟩ [.val 1] 2 true =
      .ok ⟨1, 1, [[.val 1]], [], [], [10, 20]⟩ ∧
    ¬ ((⟨1, 1, [[.val 1]], [], [], [10, 20]⟩ : Table).timestamps.length ≤
        (⟨1, 1, [[.val 1]], [], [], [10, 20]⟩ : Table).nrow) := by
  decide

/-- C4, counterexample: renaming column 0 of a table labeled
`a -> 0, b -> 1` to the colliding label `b` throws `ColumnLabelExists`, but
the registry after the failed call is `[(b, 1)]`: the old label `a` has
already been erased and is no longer mapped, so the rename is not atomic. -/
theorem C4_counterexample :
    changeColumnLabelIx tblAB 0 "b" =
      .exn .ColumnLabelExists ⟨1, 2, [[.val 1, .val 2]], [("b", 1)], [], []⟩ ∧
    hasColumnLabel ⟨1, 2, [[.val 1, .val 2]], [("b", 1)], [], []⟩ "a" = false ∧
    hasColumnLabel tblAB "a" = true := by
  decide

/-- C5, counterexample: appending a 2-element sequence to a 1-by-4 table with
missing values disallowed throws `NotEnoughElements`, but the table is not
left unmodified — the row count has grown to 2 and the partial row
`[1, 2, nan, nan]` is committed, because the source resizes and writes before
it checks the element count. -/
theorem C5_counterexample :
    addRowIter tbl14 [.val 1, .val 2] 2 false =
      .exn .NotEnoughElements
        ⟨2, 4, [[.val 9, .val 8, .val 7, .val 6],
                [.val 1, .val 2, .nan, .nan]], [], [], []⟩ ∧
    tbl14.nrow = 1 := by
  decide

/-- The capacity step the spec describes for the ingestion loop: the current
capacity rounded up to the next power of two, i.e. doubled when it already is
a power of two.  Stated from the spec's words for comparison with the
source's `nextCap`. -/
def specNextCap (n : Nat) : Nat :=
  if n &&& (n - 1) == 0 then n * 2 else rndToNextPowOf2 n

/-- C6: the source comment says a power-of-two capacity is doubled, and the
claim says capacity is rounded up to the next power of two, but the code
computes `ncol << 2`: from the default hint 2, ingesting 5 elements grows the
capacity to 8 in one step (the spec-described growth gives 4).  The final
trim to the exact element count (5) does hold, as does the round-up for
non-powers of two. -/
theorem C6_growth_eval :
    nextCap 2 = 8 ∧
    specNextCap 2 = 4 ∧
    nextCap 4 = 16 ∧
    (addRowEmptyRun [.val 1, .val 2, .val 3, .val 4, .val 5] 2).1.caps = [8] ∧
    (addRowEmptyRun [.val 1, .val 2, .val 3, .val 4, .val 5] 2).2.2 = 5 ∧
    addRowIter tblEmpty [.val 1, .val 2, .val 3, .val 4, .val 5] 2 false =
      .ok ⟨1, 5, [[.val 1, .val 2, .val 3, .val 4, .val 5]], [], [], []⟩ ∧
    nextCap 3 = 4 ∧
    rndToNextPowOf2 3 = 4 ∧
    rndToNextPowOf2 5 = 8 := by
  decide

/-- C7: on the fully stamped table `[1, 3, 5]`, the exact-match lookups do
throw `TimestampDoesNotExist` for absent queries that lie at or below the
range (0 and 2), and find present ones (3 at row 1) — but for the query 7,
strictly greater than the last stored timestamp, `lower_bound` returns the
end iterator and the code dereferences it before any check: undefined
behavior, not the `TimestampDoesNotExist` failure the claim states.  The
exact-match lookup inside `changeTimestamp` has the same flaw. -/
theorem C7_exact_lookup_eval :
    getRowIndexExact tbl135 2 = .exn .TimestampDoesNotExist ∧
    getRowIndexExact tbl135 0 = .exn .TimestampDoesNotExist ∧
    getRowIndexExact tbl135 3 = .ok 1 ∧
    getRowIndexExact tbl135 7 = .ub ∧
    changeTimestamp tbl135 7 9 = .ub := by
  decide

/-- C8: on a non-empty 2-by-1 table, `addRow` with a wrong-length row vector
throws `NumberOfColumnsMismatch` and a zero-length input throws
`ZeroElements` as claimed, but `addColumn` with a wrong-length vector throws
`NotEnoughElements` — not the `NumberOfRowsMismatch` its own doc comment and
the claim state. -/
theorem C8_shape_errors_eval :
    addRowFixed tbl21 [.val 1, .val 2, .val 3] =
      .exn .NumberOfColumnsMismatch tbl21 ∧
    addRowFixed tbl21 [] = .exn .ZeroElements tbl21 ∧
    addColumnFixed tbl21 [] = .exn .ZeroElements tbl21 ∧
    addColumnFixed tbl21 [.val 1, .val 2, .val 3] =
      .exn .NotEnoughElements tbl21 ∧
    addColumnFixed tbl21 [.val 1, .val 2, .val 3] ≠
      .exn .NumberOfRowsMismatch tbl21 := by
  decide

/-- A bounded in-place update that passed both neighbor checks keeps the
column strictly increasing. -/
theorem strictIncr_set_of_chk (ts : List Int) (i : Nat) (t : Int)
    (hp : StrictIncr ts) (hi : i < ts.length)
    (hcp : chkPrev ts i t = .ok) (hcn : chkNext ts i t = .ok) :
    StrictIncr (ts.set i t) := by
  apply strictIncr_set ts i t hp hi
  · rcases chkPrev_ok_elim ts i t hcp with h | h
    · exact Or.inl h
    · exact Or.inr h.2
  · rcases chkNext_ok_elim ts i t hcn with h | h
    · left
      unfold sizeSub1 at h
      split at h
      · omega
      · omega
    · exact Or.inr h.2

/-- C2, amended: in every state whose timestamp sequence is strictly
increasing, `addTimestamp`, `addTimestamps`, `changeTimestampOfRow` and
`changeTimestamp` keep it strictly increasing, and a failing `addTimestamp`,
`changeTimestampOfRow` or `changeTimestamp` leaves the sequence exactly as it
was; a failing bulk `addTimestamps`, however, leaves the already-validated
prefix of its input appended (the sequence is an extension of the original,
still strictly increasing), rather than the unchanged sequence the claim
states. -/
theorem C2_amended (s : Table) (hinv : StrictIncr s.timestamps) :
    (∀ t e s2, addTimestamp s t = .exn e s2 → s2.timestamps = s.timestamps) ∧
    (∀ t s2, addTimestamp s t = .ok s2 → StrictIncr s2.timestamps) ∧
    (∀ l e s2, addTimestamps s l = .exn e s2 →
      StrictIncr s2.timestamps ∧ ∃ pre, s2.timestamps = s.timestamps ++ pre) ∧
    (∀ l s2, addTimestamps s l = .ok s2 → StrictIncr s2.timestamps) ∧
    (∀ i t e s2, changeTimestampOfRow s i t = .exn e s2 →
      s2.timestamps = s.timestamps) ∧
    (∀ i t s2, changeTimestampOfRow s i t = .ok s2 →
      StrictIncr s2.timestamps) ∧
    (∀ o n e s2, changeTimestamp s o n = .exn e s2 →
      s2.timestamps = s.timestamps) ∧
    (∀ o n s2, changeTimestamp s o n = .ok s2 → StrictIncr s2.timestamps) := by
  refine ⟨?_, ?_, ?_, ?_, ?_, ?_, ?_, ?_⟩
  · intro t e s2 hres
    unfold addTimestamp at hres
    split at hres
    · injection hres with h1 h2; rw [← h2]
    · split at hres
      · injection hres with h1 h2; rw [← h2]
      · split at hres
        · cases hres
        · injection hres with h1 h2; rw [← h2]
        · cases hres
  · intro t s2 hres
    unfold addTimestamp at hres
    split at hres
    · cases hres
    · split at hres
      · cases hres
      · split at hres
        · cases hres
        · cases hres
        · next hcp =>
          injection hres with h2
          rw [← h2]
          exact strictIncr_append_single s.timestamps t hinv
            (chkPrev_append_ok_elim s.timestamps t hcp)
  · intro l e s2 hres
    unfold addTimestamps at hres
    split at hres
    · injection hres with h1 h2
      exact ⟨by rw [← h2]; exact hinv, [], by rw [← h2]; simp⟩
    · split at hres
      · injection hres with h1 h2
        exact ⟨by rw [← h2]; exact hinv, [], by rw [← h2]; simp⟩
      · obtain ⟨hsi, pre, hpre⟩ :=
          addTsLoop_strictIncr s.nrow l s.timestamps hinv
        split at hres
        · cases hres
        · next heq =>
          injection hres with h1 h2
          rw [← h2]
          rw [heq] at hsi hpre
          exact ⟨hsi, pre, hpre⟩
  · intro l s2 hres
    unfold addTimestamps at hres
    split at hres
    · cases hres
    · split at hres
      · cases hres
      · obtain ⟨hsi, pre, hpre⟩ :=
          addTsLoop_strictIncr s.nrow l s.timestamps hinv
        split at hres
        · next heq =>
          injection hres with h2
          rw [← h2]
          rw [heq] at hsi
          exact hsi
        · cases hres
  · intro i t e s2 hres
    unfold changeTimestampOfRow at hres
    split at hres
    · injection hres with h1 h2; rw [← h2]
    · split at hres
      · injection hres with h1 h2; rw [← h2]
      · split at hres
        · injection hres with h1 h2; rw [← h2]
        · split at hres
          · cases hres
          · injection hres with h1 h2; rw [← h2]
          · split at hres
            · cases hres
            · injection hres with h1 h2; rw [← h2]
            · cases hres
  · intro i t s2 hres
    unfold changeTimestampOfRow at hres
    split at hres
    · cases hres
    · split at hres
      · cases hres
      · split at hres
        · cases hres
        · next hidx =>
          split at hres
          · cases hres
          · cases hres
          · next hcp =>
            split at hres
            · cases hres
            · cases hres
            · next hcn =>
              injection hres with h2
              rw [← h2]
              have hi : i < s.timestamps.length := by
                by_cases hlen : s.timestamps.length = 0
                · exfalso
                  rcases chkPrev_ok_elim s.timestamps i t hcp with h | h
                  · rcases chkNext_ok_elim s.timestamps i t hcn with h3 | h3
                    · unfold sizeSub1 at h3
                      rw [if_pos hlen] at h3
                      omega
                    · omega
                  · omega
                · unfold sizeSub1 at hidx
                  rw [if_neg hlen] at hidx
                  omega
              exact strictIncr_set_of_chk s.timestamps i t hinv hi hcp hcn
  · intro o n e s2 hres
    unfold changeTimestamp at hres
    split at hres
    · injection hres with h1 h2; rw [← h2]
    · split at hres
      · injection hres with h1 h2; rw [← h2]
      · dsimp only at hres
        split at hres
        · cases hres
        · split at hres
          · injection hres with h1 h2; rw [← h2]
          · split at hres
            · cases hres
            · injection hres with h1 h2; rw [← h2]
            · split at hres
              · cases hres
              · injection hres with h1 h2; rw [← h2]
              · cases hres
  · intro o n s2 hres
    unfold changeTimestamp at hres
    split at hres
    · cases hres
    · split at hres
      · cases hres
      · dsimp only at hres
        split at hres
        · cases hres
        · next v hv =>
          split at hres
          · cases hres
          · split at hres
            · cases hres
            · cases hres
            · next hcp =>
              split at hres
              · cases hres
              · cases hres
              · next hcn =>
                injection hres with h2
                rw [← h2]
                have hi : lowerBoundIdx s.timestamps o < s.timestamps.length :=
                  (List.getElem?_eq_some.mp hv).choose
                exact strictIncr_set_of_chk s.timestamps
                  (lowerBoundIdx s.timestamps o) n hinv hi hcp hcn

/-- C2, witness: on the fully stamped table `[1, 3, 5]`, a strictly
increasing sequence, the in-range rewrite of timestamp 3 to 4 succeeds and
the resulting sequence `[1, 4, 5]` is again strictly increasing. -/
theorem C2_witness :
    StrictIncr tbl135.timestamps ∧
    StrictIncr (⟨3, 1, [[.val 10], [.val 30], [.val 50]], [], [],
      [1, 4, 5]⟩ : Table).timestamps :=
  ⟨by decide,
   (C2_amended tbl135 (by decide)).2.2.2.2.2.2.2 3 4
     ⟨3, 1, [[.val 10], [.val 30], [.val 50]], [], [], [1, 4, 5]⟩
     (by decide)⟩

/-- The row-coverage invariant of claim C3 — the timestamp column never
outnumbers the rows — read off an operation outcome (an undefined-behavior
outcome has no post-state). -/
def TsLenInv : MutRes → Prop
  | .ok t => t.timestamps.length ≤ t.nrow
  | .exn _ t => t.timestamps.length ≤ t.nrow
  | .ub => True

/-- C3, amended: the fixed-size appends and every timestamp operation
preserve the coverage invariant `timestamps.length ≤ nrow`, and the
iterator-based `addRow` preserves it on every table that has at least one
column or has no rows; the invariant does not hold for arbitrary operation
sequences, because two reachable resets leave the timestamp column
outnumbering the rows (see the counterexample): the inherited `clearData`
wipes the matrix to 0-by-0 without touching the timestamp column, and the
iterator-based `addRow` on a zero-column table that still has rows takes its
empty-table branch and resets the row count to one. -/
theorem C3_amended (s : Table) (hle : s.timestamps.length ≤ s.nrow) :
    (∀ row, TsLenInv (addRowFixed s row)) ∧
    (∀ col, TsLenInv (addColumnFixed s col)) ∧
    (∀ input hint am, 0 < s.ncol ∨ s.nrow = 0 →
      TsLenInv (addRowIter s input hint am)) ∧
    (∀ t, TsLenInv (addTimestamp s t)) ∧
    (∀ l, TsLenInv (addTimestamps s l)) ∧
    (∀ i t, TsLenInv (changeTimestampOfRow s i t)) ∧
    (∀ o n, TsLenInv (changeTimestamp s o n)) := by
  refine ⟨?_, ?_, ?_, ?_, ?_, ?_, ?_⟩
  · intro row
    unfold addRowFixed
    split
    · exact hle
    · split
      · exact hle
      · show s.timestamps.length ≤ s.nrow + 1
        omega
  · intro col
    unfold addColumnFixed
    split
    · exact hle
    · split
      · exact hle
      · next h1 h2 =>
        show s.timestamps.length ≤ col.length
        rcases Nat.eq_zero_or_pos s.nrow with h3 | h3
        · omega
        · have h4 : col.length = s.nrow := by
            by_contra hc
            exact h2 ⟨h3, hc⟩
          omega
  · intro input hint am hcase
    unfold addRowIter
    split
    · exact hle
    · split
      · exact hle
      · split
        · split
          · show s.timestamps.length ≤ s.nrow + 1
            omega
          · show s.timestamps.length ≤ s.nrow + 1
            omega
        · next hncol =>
          show s.timestamps.length ≤ 1
          rcases hcase with h | h
          · exact absurd h hncol
          · omega
  · intro t
    unfold addTimestamp
    split
    · exact hle
    · split
      · exact hle
      · split
        · trivial
        · exact hle
        · next hful _ =>
          simp only [TsLenInv, List.length_append, List.length_singleton]
          omega
  · intro l
    unfold addTimestamps
    split
    · exact hle
    · split
      · exact hle
      · have hlen := addTsLoop_len s.nrow l s.timestamps hle
        split
        · next ts2 heq =>
          simp only [TsLenInv]
          rw [heq] at hlen
          exact hlen
        · next e ts2 heq =>
          simp only [TsLenInv]
          rw [heq] at hlen
          exact hlen
  · intro i t
    unfold changeTimestampOfRow
    split
    · exact hle
    · split
      · exact hle
      · split
        · exact hle
        · split
          · trivial
          · exact hle
          · split
            · trivial
            · exact hle
            · show (s.timestamps.set i t).length ≤ s.nrow
              simpa using hle
  · intro o n
    unfold changeTimestamp
    split
    · exact hle
    · split
      · exact hle
      · dsimp only
        split
        · trivial
        · split
          · exact hle
          · split
            · trivial
            · exact hle
            · split
              · trivial
              · exact hle
              · show (s.timestamps.set (lowerBoundIdx s.timestamps o) n).length
                    ≤ s.nrow
                simpa using hle

/-- C3, witness: on the 1-row table with no timestamps yet the invariant
`timestamps.length ≤ nrow` holds before and after `addTimestamp`. -/
theorem C3_witness :
    tblOne.timestamps.length ≤ tblOne.nrow ∧
    TsLenInv (addTimestamp tblOne 1) :=
  ⟨by decide, (C3_amended tblOne (by decide)).2.2.2.1 1⟩

/-- After erasing the unique entry carrying a key from a unique-keyed
registry, no entry with that key remains. -/
theorem any_eraseP_key (m : List (String × Nat)) (k : String)
    (hnd : (m.map Prod.fst).Nodup) :
    ((m.eraseP fun kv => kv.1 == k).any fun kv => kv.1 == k) = false := by
  induction m with
  | nil => simp
  | cons kv m ih =>
    simp only [List.map_cons, List.nodup_cons] at hnd
    cases hk : (kv.1 == k) with
    | true =>
      simp only [List.eraseP_cons, hk, cond_true]
      have hk2 : kv.1 = k := by simpa using hk
      rw [List.any_eq_false]
      intro x hx
      simp only [beq_iff_eq]
      intro hxk
      exact hnd.1 (by
        rw [hk2, ← hxk]
        exact List.mem_map_of_mem Prod.fst hx)
    | false =>
      simp only [List.eraseP_cons, hk, cond_false]
      simp only [List.any_cons, hk, Bool.false_or]
      exact ih hnd.2

/-- C4, amended: when either `changeColumnLabel` overload fails with
`ColumnLabelExists`, the registry is not left unchanged — the old label has
already been erased (it no longer maps to anything), and the post-state is
exactly the original registry minus the old entry. -/
theorem C4_amended (s : Table) (i : Nat) (old newLbl : String)
    (hnd : (s.colInd.map Prod.fst).Nodup)
    (hold : getColumnLabel s i = .ok old)
    (hcoll : hasColumnLabel (eraseLbl s old) newLbl = true) :
    changeColumnLabelIx s i newLbl = .exn .ColumnLabelExists (eraseLbl s old) ∧
    hasColumnLabel (eraseLbl s old) old = false ∧
    ∀ j, getColumnIndex s old = .ok j →
      changeColumnLabelLbl s old newLbl =
        .exn .ColumnLabelExists (eraseLbl s old) := by
  refine ⟨?_, ?_, ?_⟩
  · unfold changeColumnLabelIx
    rw [hold]
    dsimp only
    rw [if_pos hcoll]
  · exact any_eraseP_key s.colInd old hnd
  · intro j hj
    unfold changeColumnLabelLbl
    rw [hj]
    dsimp only
    rw [if_pos hcoll]

/-- C4, witness: on the table labeled `a -> 0, b -> 1` (unique keys), the
amended statement applies: renaming column 0 to the colliding label `b`
fails with `ColumnLabelExists` and leaves the registry with the `a` entry
erased. -/
theorem C4_witness :
    (tblAB.colInd.map Prod.fst).Nodup ∧
    changeColumnLabelIx tblAB 0 "b" =
      .exn .ColumnLabelExists (eraseLbl tblAB "a") :=
  ⟨by decide, (C4_amended tblAB 0 "a" "b" (by decide) (by rfl)
    (by decide)).1⟩

/-- C1, amended: for a fully stamped table with a strictly increasing
timestamp column and a query lying strictly between two adjacent stored
timestamps and equidistant from both, `getTimestamp` and `getRowIndex` under
`LessOrGreaterThanEqual` resolve the tie toward the higher/later timestamp
(the successor), not the lower one: for `[1, 3, 5]` the query 2 resolves to
timestamp 3 (row 1) and the query 4 to timestamp 5 (row 2). -/
theorem C1_amended (s : Table) (i : Nat) (t : Int)
    (hfull : s.nrow = s.timestamps.length)
    (hnz : s.nrow ≠ 0)
    (hsi : StrictIncr s.timestamps)
    (hi1 : i + 1 < s.timestamps.length)
    (hlo : s.timestamps.getD i 0 < t)
    (hhi : t < s.timestamps.getD (i + 1) 0)
    (htie : s.timestamps.getD (i + 1) 0 - t = t - s.timestamps.getD i 0) :
    getTimestampNearest s t = .ok (s.timestamps.getD (i + 1) 0) ∧
    getRowIndexNearest s t = .ok (i + 1) := by
  have hi0 : i < s.timestamps.length := by omega
  rw [getD_eq_getElem _ i hi0] at hlo htie
  rw [getD_eq_getElem _ (i + 1) hi1] at hhi htie ⊢
  have hlb : lowerBoundIdx s.timestamps t = i + 1 := by
    apply lowerBoundIdx_eq _ _ _ (by omega)
    · intro j hj
      have hjlt : j < s.timestamps.length := by omega
      rw [getD_eq_getElem _ j hjlt]
      rcases Nat.lt_or_ge j i with hji | hji
      · have := strictIncr_getElem _ hsi j i hjlt hi0 hji
        omega
      · have hj2 : j = i := by omega
        subst hj2
        exact hlo
    · intro h2
      rw [getD_eq_getElem _ (i + 1) hi1]
      omega
  have hfneg : ¬ s.nrow ≠ s.timestamps.length := not_not_intro hfull
  constructor
  · unfold getTimestampNearest
    rw [if_neg hnz, if_neg hfneg]
    dsimp only
    rw [hlb]
    rw [if_neg (show ¬ (i + 1 = s.timestamps.length) by omega)]
    rw [List.getElem?_eq_getElem hi1]
    dsimp only
    rw [if_neg (show ¬ (s.timestamps[i + 1] = t) by omega)]
    rw [if_neg (show ¬ (i + 1 = 0) by omega)]
    rw [show i + 1 - 1 = i from rfl]
    rw [List.getElem?_eq_getElem hi0]
    dsimp only
    rw [if_pos (show s.timestamps[i + 1] - t ≤ t - s.timestamps[i] by omega)]
  · unfold getRowIndexNearest
    rw [if_neg hnz, if_neg hfneg]
    dsimp only
    rw [hlb]
    rw [if_neg (show ¬ (i + 1 = s.timestamps.length) by omega)]
    rw [List.getElem?_eq_getElem hi1]
    dsimp only
    rw [if_neg (show ¬ (s.timestamps[i + 1] = t) by omega)]
    rw [if_neg (show ¬ (i + 1 = 0) by omega)]
    rw [show i + 1 - 1 = i from rfl]
    rw [List.getElem?_eq_getElem hi0]
    dsimp only
    rw [if_pos (show s.timestamps[i + 1] - t ≤ t - s.timestamps[i] by omega)]

/-- C1, witness: the amended statement applied to the table `[1, 3, 5]` at
the equidistant query 2 between rows 0 and 1: the lookup returns timestamp 3
and row index 1. -/
theorem C1_witness :
    StrictIncr tbl135.timestamps ∧
    getTimestampNearest tbl135 2 = .ok (tbl135.timestamps.getD 1 0) ∧
    getRowIndexNearest tbl135 2 = .ok 1 :=
  ⟨by decide,
   C1_amended tbl135 0 2 (by decide) (by decide) (by decide) (by decide)
     (by decide) (by decide) (by decide)⟩

/-- Padding a row that already has the requested width is the identity. -/
theorem padRow_full (r : List EntryVal) (nc : Nat) (hc : r.length = nc) :
    padRow r nc = r := by
  unfold padRow
  rw [← hc, List.take_length]
  simp

/-- Growing a well-formed grid by one row appends a sentinel-filled row. -/
theorem matResizeKeep_grow (cells : List (List EntryVal)) (nc : Nat)
    (hwf : ∀ r ∈ cells, r.length = nc) :
    matResizeKeep cells (cells.length + 1) nc
      = cells ++ [List.replicate nc .nan] := by
  unfold matResizeKeep
  rw [List.take_of_length_le (by omega)]
  have h1 : cells.length + 1 - cells.length = 1 := by omega
  rw [h1, List.map_append]
  congr 1
  · have h2 : cells.map (fun r => padRow r nc) = cells.map id :=
      List.map_congr_left fun r hr => by rw [padRow_full r nc (hwf r hr)]; rfl
    rw [h2, List.map_id]
  · simp [padRow]

/-- The element-writing loop on the freshly appended final row overwrites its
cells in order, leaving the tail of the row as it was. -/
theorem writeCells_concat (cells : List (List EntryVal)) :
    ∀ (input pre suf : List EntryVal), input.length ≤ suf.length →
      writeCells (cells ++ [pre ++ suf]) cells.length pre.length input
        = cells ++ [pre ++ input ++ suf.drop input.length] := by
  intro input
  induction input with
  | nil =>
    intro pre suf h
    simp [writeCells]
  | cons v rest ih =>
    intro pre suf h
    cases suf with
    | nil => simp at h
    | cons w suf2 =>
      simp only [writeCells]
      have hset : setCell (cells ++ [pre ++ w :: suf2]) cells.length
          pre.length v = cells ++ [pre ++ v :: suf2] := by
        unfold setCell
        rw [List.getElem?_concat_length]
        show (cells ++ [pre ++ w :: suf2]).set cells.length
          ((pre ++ w :: suf2).set pre.length v) = _
        rw [show (pre ++ w :: suf2).set pre.length v = pre ++ v :: suf2 by
          simp [List.set_append]]
        simp [List.set_append]
      rw [hset]
      rw [show pre ++ v :: suf2 = (pre ++ [v]) ++ suf2 by simp]
      rw [show pre.length + 1 = (pre ++ [v]).length by simp]
      rw [ih (pre ++ [v]) suf2 (by simpa using h)]
      simp

/-- The table produced by a partial-row append of `input` to `s`: one more
row whose leading cells are the input values and whose remaining cells are
the fill sentinel. -/
def appendedPartialRow (s : Table) (input : List EntryVal) : Table :=
  { s with nrow := s.nrow + 1
           cells := s.cells ++
             [input ++ List.replicate (s.ncol - input.length) .nan] }

/-- C5, amended: appending a too-short element sequence to a non-empty,
well-formed table writes the input values into the leading cells of a new
sentinel-filled row; with missing values allowed the call succeeds, and with
missing values disallowed it throws `NotEnoughElements` — but in both cases
the partially filled row is committed and the row count grows by one, rather
than the table being left unmodified on failure as the claim states. -/
theorem C5_amended (s : Table) (input : List EntryVal) (hint : Nat)
    (hwf : ∀ r ∈ s.cells, r.length = s.ncol)
    (hlen : s.cells.length = s.nrow)
    (hnz : 0 < s.nrow)
    (h0 : input ≠ [])
    (hk : input.length < s.ncol) :
    addRowIter s input hint true = .ok (appendedPartialRow s input) ∧
    addRowIter s input hint false =
      .exn .NotEnoughElements (appendedPartialRow s input) := by
  have hcells2 : writeCells (matResizeKeep s.cells (s.nrow + 1) s.ncol)
      s.nrow 0 input
      = s.cells ++ [input ++ List.replicate (s.ncol - input.length) .nan] := by
    rw [← hlen, matResizeKeep_grow s.cells s.ncol hwf]
    have h2 := writeCells_concat s.cells input [] (List.replicate s.ncol .nan)
      (by simp; omega)
    simpa [List.drop_replicate] using h2
  have hno : ¬ ((s.nrow = 0 ∨ s.ncol = 0) ∧ hint = 0) := by
    rintro ⟨h1 | h1, h2⟩
    · omega
    · omega
  constructor
  · unfold addRowIter
    rw [if_neg (by simpa using h0), if_neg hno,
      if_pos (show 0 < s.ncol by omega)]
    dsimp only
    rw [hcells2]
    rw [if_neg (by simp)]
    rfl
  · unfold addRowIter
    rw [if_neg (by simpa using h0), if_neg hno,
      if_pos (show 0 < s.ncol by omega)]
    dsimp only
    rw [hcells2]
    rw [if_pos (by constructor <;> [simp; omega])]
    rfl

/-- C5, witness: the amended statement applied to the 1-by-4 table and the
2-element input `[1, 2]`: with missing values allowed the appended row is
`[1, 2, nan, nan]`. -/
theorem C5_witness :
    (∀ r ∈ tbl14.cells, r.length = tbl14.ncol) ∧
    addRowIter tbl14 [.val 1, .val 2] 2 true =
      .ok (appendedPartialRow tbl14 [.val 1, .val 2]) :=
  ⟨by decide, (C5_amended tbl14 [.val 1, .val 2] 2 (by decide) (by decide)
    (by decide) (by decide) (by decide)).1⟩

/-- C9: inserting a fresh key records the value with its type; retrieving it
under the same type returns a value equal to the one inserted, retrieving it
under any other type fails with `MetaDataTypeMismatch`, and retrieving any
key absent after the insertion fails with `MetaDataKeyDoesNotExist`. -/
theorem C9_metadata_roundtrip (s : Table) (k : String) (tag : Nat) (v : Int)
    (habs : hasMetaData s k = false) :
    ∀ s2, insertMetaData s k tag v = .ok s2 →
      getMetaData s2 tag k = .ok v ∧
      (∀ tag2, tag2 ≠ tag →
        getMetaData s2 tag2 k = .error .MetaDataTypeMismatch) ∧
      (∀ k2, hasMetaData s2 k2 = false →
        getMetaData s2 tag k2 = .error .MetaDataKeyDoesNotExist) := by
  intro s2 hres
  unfold insertMetaData at hres
  rw [if_neg (by simp [habs])] at hres
  injection hres with h2
  subst h2
  have hfind : ((s.metadata ++ [(k, tag, v)]).find? fun kv => kv.1 == k)
      = some (k, tag, v) := by
    rw [List.find?_append]
    have h1 : (s.metadata.find? fun kv => kv.1 == k) = none := by
      rw [List.find?_eq_none]
      intro x hx hxk
      unfold hasMetaData at habs
      exact absurd hxk (by
        have := List.any_eq_false.mp habs x hx
        simpa using this)
    rw [h1]
    simp
  refine ⟨?_, ?_, ?_⟩
  · unfold getMetaData
    dsimp only
    rw [hfind]
    dsimp only
    rw [if_neg (by simp)]
  · intro tag2 hne
    unfold getMetaData
    dsimp only
    rw [hfind]
    dsimp only
    rw [if_pos (by simpa using hne.symm)]
  · intro k2 habs2
    unfold getMetaData
    dsimp only
    have hnone : ((s.metadata ++ [(k, tag, v)]).find? fun kv => kv.1 == k2)
        = none := by
      rw [List.find?_eq_none]
      intro x hx hxk
      unfold hasMetaData at habs2
      dsimp only at habs2
      exact absurd hxk (by
        have := List.any_eq_false.mp habs2 x hx
        simpa using this)
    rw [hnone]

/-- C9, witness: inserting 7 under key `m` with type tag 0 into the empty
table and reading it back under the same tag returns 7. -/
theorem C9_witness :
    hasMetaData tblEmpty "m" = false ∧
    getMetaData ⟨0, 0, [], [], [("m", 0, 7)], []⟩ 0 "m" = .ok 7 :=
  ⟨by decide,
   ((C9_metadata_roundtrip tblEmpty "m" 0 7 (by decide))
     ⟨0, 0, [], [], [("m", 0, 7)], []⟩ (by decide)).1⟩

/-- C10: the two label-existence queries are asymmetric — the string query
`hasColumnLabel` is total and simply answers `false` for an unmapped label,
while the index query `columnHasLabel` throws `ColumnDoesNotExist` for every
index at or beyond the column count instead of answering `false`. -/
theorem C10_label_query_asymmetry (s : Table) (i : Nat) (lbl : String)
    (hi : s.ncol ≤ i)
    (habs : ∀ kv ∈ s.colInd, kv.1 ≠ lbl) :
    columnHasLabel s i = .error .ColumnDoesNotExist ∧
    hasColumnLabel s lbl = false := by
  constructor
  · unfold columnHasLabel
    rw [if_pos (by simp only [hasColumn]; simp; omega)]
  · unfold hasColumnLabel
    rw [List.any_eq_false]
    intro x hx
    simpa using habs x hx

/-- C10, witness: on the 1-by-2 table labeled `a`, `b`, the out-of-range
index 5 errors with `ColumnDoesNotExist` while the absent label `c` merely
answers `false`. -/
theorem C10_witness :
    columnHasLabel tblAB 5 = .error .ColumnDoesNotExist ∧
    hasColumnLabel tblAB "c" = false :=
  C10_label_query_asymmetry tblAB 5 "c" (by decide) (by decide)

end OpenSimDT
